import Mathlib

/-!
Verification development for the forward-domain service.

The definitions below are a shallow embedding of the two source files of the
repository: `src/util.js` (policy matching, DNS record parsing and
validation helpers) and the request-dispatch module (cache building,
forwarding resolution and the control-plane `/flushcache` handler).
Strings are modelled as Lean `String`/`List Char`; JavaScript objects used
as string-keyed dictionaries are modelled as association lists where a new
assignment is consed in front (so the first matching key is the most recent
write, exactly the observable lookup semantics of repeated JS assignments).
External collaborators (the DNS-over-HTTPS resolver, `node:net` IP parsing,
the `validator` FQDN test, `encodeURIComponent`) enter as explicit inputs.
-/

/-- JS `String.prototype.split` with a single-character separator:
`"a;b".split(';') = ["a","b"]`, `"".split(';') = [""]`. -/
def jsSplit (sep : Char) : List Char → List (List Char)
  | [] => [[]]
  | c :: cs =>
    if c = sep then [] :: jsSplit sep cs
    else
      match jsSplit sep cs with
      | [] => [[c]]
      | h :: t => (c :: h) :: t

/-- JS `Array.prototype.join` with a single-character separator. -/
def joinWith (sep : Char) : List (List Char) → List Char
  | [] => []
  | [x] => x
  | x :: xs => x ++ sep :: joinWith sep xs

/-- ASCII model of the whitespace class removed by JS `String.prototype.trim`. -/
def jsIsWhite (c : Char) : Bool :=
  c = ' ' || c = '\t' || c = '\n' || c = '\r' || c.toNat = 11 || c.toNat = 12

/-- JS `String.prototype.trim` (ASCII whitespace model). -/
def jsTrim (l : List Char) : List Char :=
  ((l.dropWhile jsIsWhite).reverse.dropWhile jsIsWhite).reverse

/-- ASCII model of JS `String.prototype.toLowerCase` on a single character. -/
def jsLowerChar (c : Char) : Char :=
  if 65 ≤ c.toNat ∧ c.toNat ≤ 90 then Char.ofNat (c.toNat + 32) else c

/-- JS `String.prototype.toLowerCase` (ASCII model), on character lists. -/
def jsToLowerL (l : List Char) : List Char := l.map jsLowerChar

/-- JS `String.prototype.toLowerCase` (ASCII model), on strings. -/
def jsToLowerS (s : String) : String := ⟨jsToLowerL s.data⟩

/-- JS `String.prototype.startsWith` (computable prefix test on the
character lists). -/
def jsStartsWith (s p : String) : Bool := List.isPrefixOf p.data s.data

/-- `findDotPositions` from util.js: the indices of every `'.'` in the
string, in increasing order (the JS `indexOf` loop). -/
def findDotPositionsAux : List Char → Nat → List Nat
  | [], _ => []
  | c :: cs, i =>
    if c = '.' then i :: findDotPositionsAux cs (i + 1)
    else findDotPositionsAux cs (i + 1)

/-- `findDotPositions` from util.js (entry point at index 0). -/
def findDotPositions (s : List Char) : List Nat :=
  findDotPositionsAux s 0

/-- The blacklist/whitelist policy map: a JS object keyed by dotted suffix. -/
abbrev PolicyMap : Type := List (List Char × Bool)

/-- JS object property write `acc[k] = v` (cons; lookup takes the newest). -/
def objSet (m : PolicyMap) (k : List Char) (v : Bool) : PolicyMap :=
  (k, v) :: m

/-- JS object property read `m[k]`: `none` models `undefined`. -/
def objGet : PolicyMap → List Char → Option Bool
  | [], _ => none
  | (k2, v) :: rest, k => if k2 = k then some v else objGet rest k

/-- Normalisation applied by `csvToMap` to each CSV field:
`host.trim().toLowerCase()`. -/
def hostNorm (raw : List Char) : List Char := jsToLowerL (jsTrim raw)

/-- Dot positions of the normalised host. -/
def hostDots (raw : List Char) : List Nat := findDotPositions (hostNorm raw)

/-- The inner `for (let i = labelPositions.length; i-- > 0;)` loop of
`csvToMap`: writes `acc[host.slice(ps[i])] = (i == 0)` for `i` counting
down from `ps.length - 1` to `0`. -/
def insertLoopJS (host : List Char) (ps : List Nat) : Nat → PolicyMap → PolicyMap
  | 0, acc => acc
  | i + 1, acc => insertLoopJS host ps i (objSet acc (host.drop (ps.getD i 0)) (decide (i = 0)))

/-- One step of the `reduce` in `csvToMap`: normalise the host and record
all of its dotted suffixes. -/
def insertHost (m : PolicyMap) (raw : List Char) : PolicyMap :=
  insertLoopJS (hostNorm raw) (hostDots raw) (hostDots raw).length m

/-- `csvToMap` from util.js. -/
def csvToMap (s : List Char) : PolicyMap :=
  (jsSplit ',' s).foldl insertHost []

/-- `csvToMap` on strings. -/
def csvToMapS (s : String) : PolicyMap := csvToMap s.data

/-- The per-host write set of `csvToMap`, stated from the amended claim's
words for comparison with the source definition: a host writes one entry
per dot of its normalised (trimmed, lowercased) form — the key is the
suffix starting at that dot, leading dot included — valued `true` exactly
at the host's first (deepest) dot; `none` means the host writes nothing at
this key. -/
def hostVal (raw k : List Char) : Option Bool :=
  ((List.range (hostDots raw).length).find?
    (fun j => decide ((hostNorm raw).drop ((hostDots raw).getD j 0) = k))).map
    (fun j => decide (j = 0))

/-- The overwrite discipline of `csvToMap`, stated from the amended
claim's words: at each key, the value written by the latest host in the
comma-split list order wins; earlier hosts are consulted only when no
later host wrote the key. -/
def lastWrite (k : List Char) : List (List Char) → Option Bool
  | [] => none
  | raw :: rest =>
    match lastWrite k rest with
    | some v => some v
    | none => hostVal raw k

/-- The blacklist scan of `isHostBlacklisted` (no whitelist configured):
iterates `i` from `labelPositions.length - 1` down to `0`, i.e. over the
dot positions in decreasing order (shortest suffix first); `false` entries
are skipped, a `true` entry returns a match, a missing entry stops the
scan with "not blacklisted". -/
def blackScan (m : PolicyMap) (domain : List Char) : List Nat → Bool
  | [] => false
  | p :: rest =>
    match objGet m (domain.drop p) with
    | some false => blackScan m domain rest
    | some true => true
    | none => false

/-- The whitelist scan of `isHostBlacklisted` (whitelist configured):
same iteration, inverted polarity and default-deny. -/
def whiteScan (m : PolicyMap) (domain : List Char) : List Nat → Bool
  | [] => true
  | p :: rest =>
    match objGet m (domain.drop p) with
    | some false => whiteScan m domain rest
    | some true => false
    | none => true

/-- `isHostBlacklisted` from util.js, with the lazily-initialised global
maps passed explicitly (`white = none` models an unset `WHITELIST_HOSTS`). -/
def isHostBlacklisted (black : PolicyMap) (white : Option PolicyMap) (domain : List Char) : Bool :=
  match white with
  | none => blackScan black domain (findDotPositions domain).reverse
  | some w => whiteScan w domain (findDotPositions domain).reverse

/-- `isHostBlacklisted` on strings. -/
def isHostBlacklistedS (black : PolicyMap) (white : Option PolicyMap) (domain : String) : Bool :=
  isHostBlacklisted black white domain.data

/-- `isExceedLabelLimit` from util.js: ten or more dots. -/
def isExceedLabelLimit (host : String) : Bool :=
  decide ((host.data.filter (fun c => c = '.')).length ≥ 10)

/-- `isExceedHostLimit` from util.js: more than 64 characters. -/
def isExceedHostLimit (host : String) : Bool :=
  decide (host.data.length > 64)

/-- A string-keyed, string-valued JS object (the `parseTxtRecordData` result). -/
abbrev StrMap : Type := List (String × String)

/-- JS object property read for `StrMap`. -/
def objGetS : StrMap → String → Option String
  | [], _ => none
  | (k2, v) :: rest, k => if k2 = k then some v else objGetS rest k

/-- `parseTxtRecordData` from util.js: split the value on `';'`; for each
part, `const [key, ...value] = part.split('=')`; keep the pair when the key
is a nonempty string and at least one `'='` was present, the stored value
being the remaining fragments re-joined with `'='` (so only the first `'='`
of a segment splits key from value). -/
def parseTxtRecordData (value : String) : StrMap :=
  (jsSplit ';' value.data).foldl
    (fun result part =>
      match jsSplit '=' part with
      | [] => result
      | key :: vals =>
        if key ≠ [] ∧ vals ≠ [] then (⟨key⟩, ⟨joinWith '=' vals⟩) :: result else result)
    []

/-- A DNS answer record as returned by the DNS-over-HTTPS collaborator:
a numeric RR `type` (16 = TXT, 257 = CAA) and a `data` string. -/
structure DnsAnswer where
  type : Nat
  data : String
deriving DecidableEq, Repr

/-- The parsed TXT configuration returned by `findTxtRecord`:
`{ url, httpStatus }`, where `httpStatus` may be absent (`undefined`). -/
structure TxtRecord where
  url : String
  httpStatus : Option String
deriving DecidableEq, Repr

/-- The record name queried by `findTxtRecord`: the literal `"_."`
prepended to the host (util.js line 166). -/
def txtQueryName (host : String) : String := "_." ++ host

/-- Does this answer record stop the `findTxtRecord` loop: RR type 16 and a
truthy (nonempty) `forward-domain` value in its parsed data. -/
def txtQualifies (a : DnsAnswer) : Bool :=
  a.type == 16 &&
    match objGetS (parseTxtRecordData a.data) "forward-domain" with
    | some u => u ≠ ""
    | none => false

/-- The `TxtRecord` built from a qualifying answer record. -/
def txtRecordOf (a : DnsAnswer) : TxtRecord :=
  { url := (objGetS (parseTxtRecordData a.data) "forward-domain").getD ""
    httpStatus := objGetS (parseTxtRecordData a.data) "http-status" }

/-- The `for (const head of resolve.data.Answer)` loop of `findTxtRecord`. -/
def findTxtLoop : List DnsAnswer → Option TxtRecord
  | [] => none
  | a :: rest => if txtQualifies a then some (txtRecordOf a) else findTxtLoop rest

/-- `findTxtRecord` from util.js, over the TXT answer of the DNS
collaborator (`none` models a response without an `Answer` field). -/
def findTxtRecord (answer : Option (List DnsAnswer)) : Option TxtRecord :=
  match answer with
  | none => none
  | some recs => findTxtLoop recs

/-- The language of `caaRegex` from util.js,
`^0 issue (")?letsencrypt\.org(;validationmethods=http-01)?\1$`:
because of the backreference the regex accepts exactly these four strings
(issuer bare or quoted, each optionally with the qualifier inside). -/
def caaRegexTest (s : String) : Bool :=
  s = "0 issue letsencrypt.org" ||
  s = "0 issue letsencrypt.org;validationmethods=http-01" ||
  s = "0 issue \"letsencrypt.org\"" ||
  s = "0 issue \"letsencrypt.org;validationmethods=http-01\""

/-- The `issueRecords` list computed by `validateCAARecords`: the `data` of
every answer of RR type 257 whose data starts with `"0 issue "`. -/
def issueRecordsOf (recs : List DnsAnswer) : List String :=
  (recs.filter (fun x => x.type == 257 && jsStartsWith x.data "0 issue ")).map (fun x => x.data)

/-- `validateCAARecords` from util.js over the CAA answer: `none` means
authorized, `some l` is the non-empty list of disqualifying issue records. -/
def validateCAARecords (answer : Option (List DnsAnswer)) : Option (List String) :=
  match answer with
  | none => none
  | some recs =>
    let issueRecords := issueRecordsOf recs
    if issueRecords.isEmpty || issueRecords.any caaRegexTest then none
    else some issueRecords

/-- Trailing-slash strip of `combineURLs` (`replace(/\/+$/, '')`). -/
def stripTrailingSlashes (l : List Char) : List Char :=
  (l.reverse.dropWhile (fun c => c = '/')).reverse

/-- Leading-slash strip of `combineURLs` (`replace(/^\/+/, '')`). -/
def stripLeadingSlashes (l : List Char) : List Char :=
  l.dropWhile (fun c => c = '/')

/-- `combineURLs` from util.js: an empty (falsy) relative URL returns the
base unchanged; otherwise join with a single `'/'`, collapsing the
duplicate slashes at the join point. -/
def combineURLs (baseURL relativeURL : String) : String :=
  if relativeURL = "" then baseURL
  else ⟨stripTrailingSlashes baseURL.data ++ '/' :: stripLeadingSlashes relativeURL.data⟩

/-- Modelled from the spec: `isHttpCodeAllowed` is imported by the server
module from util.js but is absent from the sources provided; the spec's
status-code allow-list says the `http-status` field must be one of
`301,302,307,308`. -/
def isHttpCodeAllowed (httpStatus : String) : Bool :=
  httpStatus = "301" || httpStatus = "302" || httpStatus = "307" || httpStatus = "308"

/-- JS `url.endsWith(c)` for a one-character needle. -/
def jsEndsWithChar (s : String) (c : Char) : Bool :=
  s.data.getLast? == some c

/-- JS `url.slice(0, -1)`: drop the final character. -/
def jsDropLast (s : String) : String := ⟨s.data.dropLast⟩

/-- Decimal value of a digit list (big-endian accumulator). -/
def digitsToNat : List Char → Nat → Nat
  | [], acc => acc
  | c :: cs, acc => digitsToNat cs (acc * 10 + (c.toNat - 48))

/-- Restricted model of JS `parseInt`: the value of the leading decimal
digits. In the embedding it is only applied to strings accepted by
`isHttpCodeAllowed`, which are all-digit strings, so the NaN cases of the
real `parseInt` are unreachable at its single call site. -/
def jsParseIntLeading (s : String) : Int :=
  Int.ofNat (digitsToNat (s.data.takeWhile (fun c => c.isDigit)) 0)

/-- The cache entry built by `buildCache` (the `Cache` typedef). -/
structure Cache where
  url : String
  expand : Bool
  blacklisted : Bool
  expire : Int
  httpStatus : Int
deriving DecidableEq, Repr

/-- The environment a single `buildCache(host)` call runs against: the
external collaborators (IP-literal test, the two DNS answers, the clock)
and the process-wide configuration (policy maps, TTL seconds). -/
structure BuildEnv where
  hostIsIp : Bool
  caaAnswer : Option (List DnsAnswer)
  txtAnswer : Option (List DnsAnswer)
  now : Int
  cacheExpirySeconds : Int
  blacklist : PolicyMap
  whitelist : Option PolicyMap

/-- The reassignment of `url` at lines 72-75 of the server module: a value
ending in `'*'` has the final character stripped. -/
def wildcardUrl (u : String) : String :=
  if jsEndsWithChar u '*' then jsDropLast u else u

/-- The `expand` flag set at lines 72-75 of the server module. -/
def wildcardExpand (u : String) : Bool := jsEndsWithChar u '*'

/-- `buildCache` from the server module: the ordered validation pipeline.
Failures are the thrown `Error` messages; success is the cache entry. -/
def buildCache (env : BuildEnv) (host : String) : Except String Cache :=
  if env.hostIsIp = true then
    Except.error "unable to serve with direct IP address"
  else if isExceedHostLimit host = true then
    Except.error "Host name is too long (Must no more than 64 char)"
  else if isExceedLabelLimit host = true then
    Except.error "Host parts is too long (Must less than 10 dots)"
  else
    match validateCAARecords env.caaAnswer with
    | some caaRecords =>
      Except.error ("CAA record is not \"letsencrypt.org\". Records found: "
        ++ String.intercalate "," caaRecords ++ ".")
    | none =>
      match findTxtRecord env.txtAnswer with
      | none => Except.error ("The TXT record data for \"_." ++ host ++ "\" is missing")
      | some recordData =>
        if (jsStartsWith recordData.url "http://" || jsStartsWith recordData.url "https://") = false then
          Except.error ("The TXT record data for \"_." ++ host ++ "\" is not an absolute URL")
        else if isHttpCodeAllowed (recordData.httpStatus.getD "301") = false then
          Except.error ("The record \"" ++ wildcardUrl recordData.url
            ++ "\" wants to use the http status code " ++ recordData.httpStatus.getD "301"
            ++ " which is not allowed (only 301, 302, 307 and 308)")
        else
          Except.ok
            { url := wildcardUrl recordData.url
              expand := wildcardExpand recordData.url
              blacklisted := isHostBlacklistedS env.blacklist env.whitelist host
              expire := env.now + env.cacheExpirySeconds * 1000
              httpStatus := jsParseIntLeading (recordData.httpStatus.getD "301") }

/-- A value stored in `resolveCache`: a real entry, or the empty-string
sentinel written by the `/flushcache` handler. -/
inductive CVal where
  | entry (c : Cache)
  | sentinel
deriving DecidableEq, Repr

/-- The `resolveCache` LRU store, modelled as an association map (its
capacity bound of 10000 entries is irrelevant to the claims); the first
matching key is the most recent `set`. -/
abbrev CacheMap : Type := List (String × CVal)

/-- `resolveCache.get`. -/
def cacheGet : CacheMap → String → Option CVal
  | [], _ => none
  | (k2, v) :: rest, k => if k2 = k then some v else cacheGet rest k

/-- `resolveCache.set`. -/
def cacheSet (st : CacheMap) (k : String) (v : CVal) : CacheMap :=
  (k, v) :: st

/-- An HTTP response as written by the listener: status code, optional
`Location` header, optional body. -/
structure Response where
  status : Int
  location : Option String
  body : Option String
deriving DecidableEq, Repr

/-- Lines 179-183 of the listener: serve the cached entry only when the
lookup is truthy (a real entry, not `undefined` and not the `''` sentinel)
and not expired (`Date.now() > cache.expire` forces a rebuild); otherwise
run `buildCache` and overwrite the slot with the fresh entry. -/
def resolveStep (st : CacheMap) (env : BuildEnv) (host : String) :
    Except String (Cache × CacheMap) :=
  match cacheGet st host with
  | some (CVal.entry c) =>
    if env.now > c.expire then
      (buildCache env host).map (fun c2 => (c2, cacheSet st host (CVal.entry c2)))
    else Except.ok (c, st)
  | _ => (buildCache env host).map (fun c2 => (c2, cacheSet st host (CVal.entry c2)))

/-- The catch block of the listener: a truthy (nonempty) error message is
surfaced as 400 with that message, otherwise 500 "Unknown error". -/
def errorResponse (msg : String) : Response :=
  if msg ≠ "" then { status := 400, location := none, body := some msg }
  else { status := 500, location := none, body := some "Unknown error" }

/-- Line 196 of the listener: the final `Location` header value. -/
def redirectLocation (c : Cache) (reqUrl : String) : String :=
  if c.expand then combineURLs c.url reqUrl else c.url

/-- The `replace(/:\d+$/, '')` of line 109: strip a trailing
colon-and-digits port suffix. -/
def stripPortSuffix (l : List Char) : List Char :=
  let r := l.reverse
  let ds := r.takeWhile (fun c => c.isDigit)
  match r.drop ds.length with
  | ':' :: rest => if ds.isEmpty then l else rest.reverse
  | _ => l

/-- Line 109 of the listener: the cache key for forwarding resolution is
the Host header lowercased with any port suffix stripped. -/
def normalizeHost (s : String) : String :=
  ⟨stripPortSuffix (jsToLowerL s.data)⟩

/-- The dispatcher-level collaborators of the forwarding branch. -/
structure SrvEnv where
  build : BuildEnv
  blacklistRedirectUrl : Option String
  encodeURIComponent : String → String
  isFQDN : String → Bool

/-- The forwarding branch of the listener (lines 179-208): resolve through
the cache, answer the blacklist outcome or the redirect, and surface a
resolution failure via the catch block; on failure the cache is unchanged. -/
def serveForward (env : SrvEnv) (st : CacheMap) (rawHost : String) (reqUrl : String) :
    Response × CacheMap :=
  let host := normalizeHost rawHost
  match resolveStep st env.build host with
  | Except.error msg => (errorResponse msg, st)
  | Except.ok (c, st2) =>
    if c.blacklisted then
      match env.blacklistRedirectUrl with
      | some u =>
        ({ status := 302, location := some (u ++ "?d=" ++ env.encodeURIComponent rawHost),
           body := none }, st2)
      | none => ({ status := 403, location := none, body := some "Host is forbidden" }, st2)
    else
      ({ status := c.httpStatus, location := some (redirectLocation c reqUrl), body := none }, st2)

/-- The body-handling of the `/flushcache` endpoint (lines 151-168): a
present, truthy `domain` body field that passes the FQDN test and
currently holds a real (non-null, non-undefined, non-empty) cache entry
has its slot overwritten with the empty sentinel; the `domain` value is
used verbatim as the cache key. -/
def flushDomain (isFQDN : String → Bool) (st : CacheMap) : Option String → CacheMap
  | none => st
  | some d =>
    if d = "" then st
    else if isFQDN d then
      match cacheGet st d with
      | some (CVal.entry _) => cacheSet st d CVal.sentinel
      | _ => st
    else st

/-- The response side of `/flushcache`: non-POST is 405, POST always
answers 200 "Cache cleared" while applying `flushDomain` to the store. -/
def flushcache (isFQDN : String → Bool) (method : String) (bodyDomain : Option String)
    (st : CacheMap) : Response × CacheMap :=
  if method = "POST" then
    ({ status := 200, location := none, body := some "Cache cleared" },
      flushDomain isFQDN st bodyDomain)
  else ({ status := 405, location := none, body := some "Method Not Allowed" }, st)

/-! ### List and split lemmas -/

theorem jsSplit_ne_nil (sep : Char) (l : List Char) : jsSplit sep l ≠ [] := by
  cases l with
  | nil => simp [jsSplit]
  | cons c cs =>
    unfold jsSplit
    by_cases h : c = sep
    · simp [h]
    · simp only [if_neg h]
      cases jsSplit sep cs <;> simp

theorem jsSplit_of_not_mem (sep : Char) (l : List Char) (h : sep ∉ l) :
    jsSplit sep l = [l] := by
  induction l with
  | nil => rfl
  | cons c cs ih =>
    have hc : c ≠ sep := fun hc => h (hc ▸ List.mem_cons_self c cs)
    have hcs : sep ∉ cs := fun hm => h (List.mem_cons_of_mem c hm)
    unfold jsSplit
    rw [if_neg hc, ih hcs]

theorem joinWith_jsSplit (sep : Char) (l : List Char) :
    joinWith sep (jsSplit sep l) = l := by
  induction l with
  | nil => rfl
  | cons c cs ih =>
    unfold jsSplit
    by_cases h : c = sep
    · subst h
      rw [if_pos rfl]
      obtain ⟨h2, t2, ht⟩ : ∃ h2 t2, jsSplit c cs = h2 :: t2 := by
        cases hs : jsSplit c cs with
        | nil => exact absurd hs (jsSplit_ne_nil c cs)
        | cons a b => exact ⟨a, b, rfl⟩
      rw [ht] at ih ⊢
      simpa [joinWith] using ih
    · rw [if_neg h]
      obtain ⟨h2, t2, ht⟩ : ∃ h2 t2, jsSplit sep cs = h2 :: t2 := by
        cases hs : jsSplit sep cs with
        | nil => exact absurd hs (jsSplit_ne_nil sep cs)
        | cons a b => exact ⟨a, b, rfl⟩
      rw [ht] at ih ⊢
      cases t2 with
      | nil => simpa [joinWith] using ih
      | cons x xs => simpa [joinWith] using ih

theorem jsSplit_cons_of_head (sep : Char) (k v : List Char) (hk : sep ∉ k) :
    jsSplit sep (k ++ sep :: v) = k :: jsSplit sep v := by
  induction k with
  | nil => simp [jsSplit]
  | cons c cs ih =>
    have hc : c ≠ sep := fun hc => hk (hc ▸ List.mem_cons_self c cs)
    have hcs : sep ∉ cs := fun hm => hk (List.mem_cons_of_mem c hm)
    have ihr := ih hcs
    simp only [List.cons_append, jsSplit, if_neg hc]
    have happ : cs.append (sep :: v) = cs ++ sep :: v := rfl
    rw [happ, ihr]

/-! ### Dot-position lemmas -/

theorem mem_findDotPositionsAux (s : List Char) :
    ∀ n p, p ∈ findDotPositionsAux s n ↔ ∃ j, p = n + j ∧ s[j]? = some '.' := by
  induction s with
  | nil => intro n p; simp [findDotPositionsAux]
  | cons c cs ih =>
    intro n p
    constructor
    · intro h
      unfold findDotPositionsAux at h
      by_cases hc : c = '.'
      · rw [if_pos hc] at h
        rcases List.mem_cons.mp h with rfl | h2
        · exact ⟨0, by omega, by simp [hc]⟩
        · obtain ⟨j, hpj, hj⟩ := (ih (n + 1) p).mp h2
          exact ⟨j + 1, by omega, by simpa using hj⟩
      · rw [if_neg hc] at h
        obtain ⟨j, hpj, hj⟩ := (ih (n + 1) p).mp h
        exact ⟨j + 1, by omega, by simpa using hj⟩
    · rintro ⟨j, hpj, hj⟩
      unfold findDotPositionsAux
      by_cases hc : c = '.'
      · rw [if_pos hc]
        cases j with
        | zero =>
          have hpn : p = n := by omega
          exact hpn ▸ List.mem_cons_self _ _
        | succ j2 =>
          exact List.mem_cons_of_mem _ ((ih (n + 1) p).mpr ⟨j2, by omega, by simpa using hj⟩)
      · rw [if_neg hc]
        cases j with
        | zero => simp at hj; exact absurd hj hc
        | succ j2 => exact (ih (n + 1) p).mpr ⟨j2, by omega, by simpa using hj⟩

theorem mem_findDotPositions (s : List Char) (p : Nat) :
    p ∈ findDotPositions s ↔ s[p]? = some '.' := by
  rw [findDotPositions, mem_findDotPositionsAux]
  constructor
  · rintro ⟨j, rfl, hj⟩; simpa using hj
  · intro h; exact ⟨p, by omega, h⟩

theorem findDotPositionsAux_lower (s : List Char) :
    ∀ n p, p ∈ findDotPositionsAux s n → n ≤ p := by
  induction s with
  | nil => intro n p h; simp [findDotPositionsAux] at h
  | cons c cs ih =>
    intro n p h
    unfold findDotPositionsAux at h
    by_cases hc : c = '.'
    · rw [if_pos hc] at h
      rcases List.mem_cons.mp h with rfl | h2
      · exact Nat.le_refl _
      · exact Nat.le_of_succ_le (ih (n + 1) p h2)
    · rw [if_neg hc] at h
      exact Nat.le_of_succ_le (ih (n + 1) p h)

theorem findDotPositionsAux_pairwise (s : List Char) :
    ∀ n, List.Pairwise (· < ·) (findDotPositionsAux s n) := by
  induction s with
  | nil => intro n; simp [findDotPositionsAux]
  | cons c cs ih =>
    intro n
    unfold findDotPositionsAux
    by_cases hc : c = '.'
    · rw [if_pos hc]
      refine List.pairwise_cons.mpr ⟨?_, ih (n + 1)⟩
      intro p hp
      exact Nat.lt_of_lt_of_le (Nat.lt_succ_self n) (findDotPositionsAux_lower cs (n + 1) p hp)
    · rw [if_neg hc]
      exact ih (n + 1)

theorem findDotPositions_pairwise (s : List Char) :
    List.Pairwise (· < ·) (findDotPositions s) :=
  findDotPositionsAux_pairwise s 0

theorem findDotPositions_lt_length (s : List Char) (p : Nat)
    (h : p ∈ findDotPositions s) : p < s.length := by
  have := (mem_findDotPositions s p).mp h
  rcases List.getElem?_eq_some_iff.mp this with ⟨hlt, _⟩
  exact hlt

theorem getD_mem_of_lt {l : List Nat} {n : Nat} (h : n < l.length) : l.getD n 0 ∈ l := by
  induction l generalizing n with
  | nil => simp at h
  | cons a t ih =>
    cases n with
    | zero => simp
    | succ n2 =>
      simp only [List.getD_eq_getElem?_getD, List.getElem?_cons_succ]
      right
      have := ih (n := n2) (by simpa using h)
      simpa [List.getD_eq_getElem?_getD] using this

/-! ### Policy map structure lemmas -/

theorem pairwise_getD_lt (l : List Nat) (hp : List.Pairwise (· < ·) l) :
    ∀ i j, i < j → j < l.length → l.getD i 0 < l.getD j 0 := by
  induction l with
  | nil => intro i j _ hj; simp at hj
  | cons a t ih =>
    obtain ⟨ha, hpt⟩ := List.pairwise_cons.mp hp
    intro i j hij hj
    cases j with
    | zero => omega
    | succ j2 =>
      cases i with
      | zero =>
        simp only [List.getD_eq_getElem?_getD, List.getElem?_cons_zero,
          List.getElem?_cons_succ, Option.getD_some]
        have hmem : t.getD j2 0 ∈ t := getD_mem_of_lt (by simpa using hj)
        simpa [List.getD_eq_getElem?_getD] using ha _ hmem
      | succ i2 =>
        simp only [List.getD_eq_getElem?_getD, List.getElem?_cons_succ]
        have := ih hpt i2 j2 (by omega) (by simpa using hj)
        simpa [List.getD_eq_getElem?_getD] using this

theorem insertLoopJS_eq (host : List Char) (ps : List Nat) :
    ∀ n acc, insertLoopJS host ps n acc =
      ((List.range n).map (fun i => (host.drop (ps.getD i 0), decide (i = 0)))) ++ acc := by
  intro n
  induction n with
  | zero => intro acc; simp [insertLoopJS]
  | succ n2 ih =>
    intro acc
    rw [insertLoopJS, ih, List.range_succ]
    simp [objSet, List.append_assoc]

theorem objGet_append_isSome (m1 m2 : PolicyMap) (k : List Char) :
    (objGet (m1 ++ m2) k).isSome = ((objGet m1 k).isSome || (objGet m2 k).isSome) := by
  induction m1 with
  | nil => simp [objGet]
  | cons e rest ih =>
    obtain ⟨k2, v⟩ := e
    by_cases h : k2 = k
    · simp [objGet, h]
    · simpa [objGet, h] using ih

theorem objGet_mapRange_isSome (keyf : Nat → List Char) (valf : Nat → Bool)
    (L : List Nat) (k : List Char) :
    (objGet (L.map (fun i => (keyf i, valf i))) k).isSome = true ↔ ∃ i ∈ L, k = keyf i := by
  induction L with
  | nil => simp [objGet]
  | cons a t ih =>
    by_cases h : keyf a = k
    · simp [objGet, h]
    · simp only [List.map_cons, objGet, if_neg h, ih, List.mem_cons]
      constructor
      · rintro ⟨i, hi, rfl⟩; exact ⟨i, Or.inr hi, rfl⟩
      · rintro ⟨i, hi, rfl⟩
        rcases hi with rfl | hi
        · exact absurd rfl h
        · exact ⟨i, hi, rfl⟩

theorem objGet_mapRange_distinct (keyf : Nat → List Char) (valf : Nat → Bool) :
    ∀ (L : List Nat) (acc : PolicyMap) (j : Nat), j ∈ L →
      (∀ i ∈ L, keyf i = keyf j → i = j) →
      objGet ((L.map (fun i => (keyf i, valf i))) ++ acc) (keyf j) = some (valf j) := by
  intro L
  induction L with
  | nil => intro acc j hj; simp at hj
  | cons a t ih =>
    intro acc j hj hinj
    simp only [List.map_cons, List.cons_append, objGet]
    by_cases h : keyf a = keyf j
    · have haj : a = j := hinj a (List.mem_cons_self a t) h
      subst haj
      rw [if_pos h]
    · rw [if_neg h]
      have hjt : j ∈ t := by
        rcases List.mem_cons.mp hj with rfl | hjt
        · exact absurd rfl h
        · exact hjt
      exact ih acc j hjt (fun i hi he => hinj i (List.mem_cons_of_mem a hi) he)

theorem present_insertHost (m : PolicyMap) (raw : List Char) (k : List Char) :
    (objGet (insertHost m raw) k).isSome = true ↔
      (∃ j, j < (hostDots raw).length ∧ k = (hostNorm raw).drop ((hostDots raw).getD j 0))
      ∨ (objGet m k).isSome = true := by
  rw [insertHost, insertLoopJS_eq, objGet_append_isSome, Bool.or_eq_true,
    objGet_mapRange_isSome]
  simp [List.mem_range]

theorem present_foldl (L : List (List Char)) :
    ∀ (m : PolicyMap) (k : List Char),
      (objGet (L.foldl insertHost m) k).isSome = true ↔
        (∃ raw ∈ L, ∃ j, j < (hostDots raw).length ∧
          k = (hostNorm raw).drop ((hostDots raw).getD j 0))
        ∨ (objGet m k).isSome = true := by
  induction L with
  | nil => intro m k; simp
  | cons raw rest ih =>
    intro m k
    rw [List.foldl_cons, ih]
    constructor
    · rintro (⟨r, hr, hj⟩ | hm)
      · exact Or.inl ⟨r, List.mem_cons_of_mem raw hr, hj⟩
      · rcases (present_insertHost m raw k).mp hm with hj | hm2
        · exact Or.inl ⟨raw, List.mem_cons_self raw rest, hj⟩
        · exact Or.inr hm2
    · rintro (⟨r, hr, hj⟩ | hm)
      · rcases List.mem_cons.mp hr with rfl | hr2
        · exact Or.inr ((present_insertHost m r k).mpr (Or.inl hj))
        · exact Or.inl ⟨r, hr2, hj⟩
      · exact Or.inr ((present_insertHost m raw k).mpr (Or.inr hm))

theorem present_csvToMap (s : List Char) (k : List Char) :
    (objGet (csvToMap s) k).isSome = true ↔
      ∃ raw ∈ jsSplit ',' s, ∃ j, j < (hostDots raw).length ∧
        k = (hostNorm raw).drop ((hostDots raw).getD j 0) := by
  rw [csvToMap, present_foldl]
  simp [objGet]

theorem closure_csvToMap (s : List Char) (k : List Char)
    (hk : (objGet (csvToMap s) k).isSome = true)
    (q : Nat) (hq : k[q]? = some '.') :
    (objGet (csvToMap s) (k.drop q)).isSome = true := by
  rw [present_csvToMap] at hk ⊢
  obtain ⟨raw, hraw, j, hj, hkeq⟩ := hk
  subst hkeq
  have hpq : (hostNorm raw)[(hostDots raw).getD j 0 + q]? = some '.' := by
    rw [← List.getElem?_drop]; exact hq
  have hmem : ((hostDots raw).getD j 0 + q) ∈ findDotPositions (hostNorm raw) :=
    (mem_findDotPositions _ _).mpr hpq
  obtain ⟨j2, hj2⟩ := List.mem_iff_getElem?.mp hmem
  have hj2len : j2 < (hostDots raw).length := by
    rcases List.getElem?_eq_some_iff.mp hj2 with ⟨hlt, _⟩
    exact hlt
  have hgd : (hostDots raw).getD j2 0 = (hostDots raw).getD j 0 + q := by
    have : (hostDots raw)[j2]? = some ((hostDots raw).getD j 0 + q) := hj2
    simp [List.getD_eq_getElem?_getD, this]
  refine ⟨raw, hraw, j2, hj2len, ?_⟩
  rw [hgd, List.drop_drop]

/-! ### Scan characterisation -/

theorem blackScan_iff (m : PolicyMap) (domain : List Char)
    (hcl : ∀ k, (objGet m k).isSome = true →
      ∀ q, k[q]? = some '.' → (objGet m (k.drop q)).isSome = true) :
    ∀ (l : List Nat), (∀ p ∈ l, domain[p]? = some '.') → List.Pairwise (· > ·) l →
      (blackScan m domain l = true ↔ ∃ p ∈ l, objGet m (domain.drop p) = some true) := by
  intro l
  induction l with
  | nil => intro _ _; simp [blackScan]
  | cons p rest ih =>
    intro hdots hpw
    obtain ⟨hgt, hpw2⟩ := List.pairwise_cons.mp hpw
    have hdrest : ∀ x ∈ rest, domain[x]? = some '.' := fun x hx =>
      hdots x (List.mem_cons_of_mem p hx)
    rw [blackScan]
    cases hv : objGet m (domain.drop p) with
    | none =>
      simp only [Bool.false_eq_true, false_iff]
      rintro ⟨p2, hp2, htrue⟩
      rcases List.mem_cons.mp hp2 with rfl | hp2r
      · rw [hv] at htrue; exact Option.noConfusion htrue
      · have hlt : p2 < p := hgt p2 hp2r
        have hsome : (objGet m (domain.drop p2)).isSome = true := by
          rw [htrue]; rfl
        have hdotp2 : (domain.drop p2)[p - p2]? = some '.' := by
          rw [List.getElem?_drop]
          have : p2 + (p - p2) = p := by omega
          rw [this]
          exact hdots p (List.mem_cons_self p rest)
        have := hcl (domain.drop p2) hsome (p - p2) hdotp2
        rw [List.drop_drop] at this
        have heq : p2 + (p - p2) = p := by omega
        rw [heq] at this
        rw [hv] at this
        exact Bool.noConfusion this
    | some b =>
      cases b with
      | true =>
        simp only [true_iff]
        exact ⟨p, List.mem_cons_self p rest, hv⟩
      | false =>
        rw [ih hdrest hpw2]
        constructor
        · rintro ⟨p2, hp2, htrue⟩
          exact ⟨p2, List.mem_cons_of_mem p hp2, htrue⟩
        · rintro ⟨p2, hp2, htrue⟩
          rcases List.mem_cons.mp hp2 with rfl | hp2r
          · rw [hv] at htrue
            exact absurd (Option.some.inj htrue) (by simp)
          · exact ⟨p2, hp2r, htrue⟩

theorem whiteScan_iff (m : PolicyMap) (domain : List Char)
    (hcl : ∀ k, (objGet m k).isSome = true →
      ∀ q, k[q]? = some '.' → (objGet m (k.drop q)).isSome = true) :
    ∀ (l : List Nat), (∀ p ∈ l, domain[p]? = some '.') → List.Pairwise (· > ·) l →
      (whiteScan m domain l = false ↔ ∃ p ∈ l, objGet m (domain.drop p) = some true) := by
  intro l
  induction l with
  | nil => intro _ _; simp [whiteScan]
  | cons p rest ih =>
    intro hdots hpw
    obtain ⟨hgt, hpw2⟩ := List.pairwise_cons.mp hpw
    have hdrest : ∀ x ∈ rest, domain[x]? = some '.' := fun x hx =>
      hdots x (List.mem_cons_of_mem p hx)
    rw [whiteScan]
    cases hv : objGet m (domain.drop p) with
    | none =>
      simp only [Bool.true_eq_false, false_iff]
      rintro ⟨p2, hp2, htrue⟩
      rcases List.mem_cons.mp hp2 with rfl | hp2r
      · rw [hv] at htrue; exact Option.noConfusion htrue
      · have hlt : p2 < p := hgt p2 hp2r
        have hsome : (objGet m (domain.drop p2)).isSome = true := by
          rw [htrue]; rfl
        have hdotp2 : (domain.drop p2)[p - p2]? = some '.' := by
          rw [List.getElem?_drop]
          have : p2 + (p - p2) = p := by omega
          rw [this]
          exact hdots p (List.mem_cons_self p rest)
        have := hcl (domain.drop p2) hsome (p - p2) hdotp2
        rw [List.drop_drop] at this
        have heq : p2 + (p - p2) = p := by omega
        rw [heq] at this
        rw [hv] at this
        exact Bool.noConfusion this
    | some b =>
      cases b with
      | true =>
        simp only [true_iff]
        exact ⟨p, List.mem_cons_self p rest, hv⟩
      | false =>
        rw [ih hdrest hpw2]
        constructor
        · rintro ⟨p2, hp2, htrue⟩
          exact ⟨p2, List.mem_cons_of_mem p hp2, htrue⟩
        · rintro ⟨p2, hp2, htrue⟩
          rcases List.mem_cons.mp hp2 with rfl | hp2r
          · rw [hv] at htrue
            exact absurd (Option.some.inj htrue) (by simp)
          · exact ⟨p2, hp2r, htrue⟩

/-! ### Claim theorems: policy matching -/

/-- Claim C1: for every host, `isHostBlacklisted` with only a blacklist
configured returns true iff some dotted suffix of the host (a suffix
starting at one of its dots) has a terminal (`true`) blacklist entry, and
with a whitelist configured it returns the negation of "some dotted suffix
has a terminal whitelist entry" (default-deny). Every claimed stopping
behaviour is observationally subsumed by these characterisations. -/
theorem spec_c1 (csvB csvW domain : String) :
    (isHostBlacklistedS (csvToMapS csvB) none domain = true ↔
      ∃ p ∈ findDotPositions domain.data,
        objGet (csvToMapS csvB) (domain.data.drop p) = some true)
    ∧ (isHostBlacklistedS (csvToMapS csvB) (some (csvToMapS csvW)) domain = true ↔
      ¬ ∃ p ∈ findDotPositions domain.data,
        objGet (csvToMapS csvW) (domain.data.drop p) = some true) := by
  have hpwB : List.Pairwise (· > ·) (findDotPositions domain.data).reverse := by
    rw [List.pairwise_reverse]
    exact findDotPositions_pairwise domain.data
  have hdots : ∀ p ∈ (findDotPositions domain.data).reverse, domain.data[p]? = some '.' := by
    intro p hp
    exact (mem_findDotPositions _ _).mp (List.mem_reverse.mp hp)
  constructor
  · show blackScan (csvToMapS csvB) domain.data (findDotPositions domain.data).reverse = true ↔ _
    rw [blackScan_iff (csvToMapS csvB) domain.data
      (fun k hk q hq => closure_csvToMap csvB.data k hk q hq)
      (findDotPositions domain.data).reverse hdots hpwB]
    constructor
    · rintro ⟨p, hp, ht⟩; exact ⟨p, List.mem_reverse.mp hp, ht⟩
    · rintro ⟨p, hp, ht⟩; exact ⟨p, List.mem_reverse.mpr hp, ht⟩
  · show whiteScan (csvToMapS csvW) domain.data (findDotPositions domain.data).reverse = true ↔ _
    have hw := whiteScan_iff (csvToMapS csvW) domain.data
      (fun k hk q hq => closure_csvToMap csvW.data k hk q hq)
      (findDotPositions domain.data).reverse hdots hpwB
    constructor
    · intro htrue hex
      obtain ⟨p, hp, ht⟩ := hex
      have hfalse : whiteScan (csvToMapS csvW) domain.data
          (findDotPositions domain.data).reverse = false :=
        hw.mpr ⟨p, List.mem_reverse.mpr hp, ht⟩
      rw [htrue] at hfalse
      exact Bool.noConfusion hfalse
    · intro hnex
      cases hws : whiteScan (csvToMapS csvW) domain.data
          (findDotPositions domain.data).reverse with
      | false =>
        obtain ⟨p, hp, ht⟩ := hw.mp hws
        exact absurd ⟨p, List.mem_reverse.mp hp, ht⟩ hnex
      | true => rfl

theorem hostKey_inj (raw : List Char) (i j : Nat)
    (hi : i < (hostDots raw).length) (hj : j < (hostDots raw).length)
    (heq : (hostNorm raw).drop ((hostDots raw).getD i 0) =
      (hostNorm raw).drop ((hostDots raw).getD j 0)) : i = j := by
  have hpi : (hostDots raw).getD i 0 ∈ hostDots raw := getD_mem_of_lt hi
  have hpj : (hostDots raw).getD j 0 ∈ hostDots raw := getD_mem_of_lt hj
  have hli : (hostDots raw).getD i 0 < (hostNorm raw).length :=
    findDotPositions_lt_length (hostNorm raw) _ hpi
  have hlj : (hostDots raw).getD j 0 < (hostNorm raw).length :=
    findDotPositions_lt_length (hostNorm raw) _ hpj
  have hlen : (hostNorm raw).length - (hostDots raw).getD i 0 =
      (hostNorm raw).length - (hostDots raw).getD j 0 := by
    have := congrArg List.length heq
    simpa [List.length_drop] using this
  by_contra hne
  have hps : List.Pairwise (· < ·) (hostDots raw) := findDotPositions_pairwise (hostNorm raw)
  rcases Nat.lt_or_ge i j with hlt | hge
  · have := pairwise_getD_lt (hostDots raw) hps i j hlt hj
    omega
  · have hgt : j < i := by omega
    have := pairwise_getD_lt (hostDots raw) hps j i hgt hi
    omega

/-- Counterexample to claim C2: the policy map built from the CSV entry
`a.b.example.com` holds no entry for the full host (neither as
`a.b.example.com` nor as `.a.b.example.com`) — only the three dotted
suffixes are recorded, the deepest being `.b.example.com`; the
"exact match" entry is not exact: the single-dot entry `example.com`
records its terminal entry at `.com`, so the never-supplied host
`other.com` matches terminally and is blacklisted; and the value stored
at a shared suffix is decided by the latest host in list order, not by
the deepest entry seen: `example.com,a.example.com` leaves `.com` at
`false`, while the reverse order leaves it at `true`. -/
theorem spec_c2_counterexample :
    objGet (csvToMapS "a.b.example.com") "a.b.example.com".data = none
    ∧ objGet (csvToMapS "a.b.example.com") ".a.b.example.com".data = none
    ∧ objGet (csvToMapS "a.b.example.com") ".b.example.com".data = some true
    ∧ isHostBlacklistedS (csvToMapS "example.com") none "other.com" = true
    ∧ objGet (csvToMapS "example.com,a.example.com") ".com".data = some false
    ∧ objGet (csvToMapS "a.example.com,example.com") ".com".data = some true := by
  refine ⟨by decide, by decide, by decide, by decide, by decide, by decide⟩

theorem objGet_append (m1 m2 : PolicyMap) (k : List Char) :
    objGet (m1 ++ m2) k =
      match objGet m1 k with
      | some v => some v
      | none => objGet m2 k := by
  induction m1 with
  | nil => simp [objGet]
  | cons e rest ih =>
    obtain ⟨k2, v⟩ := e
    by_cases h : k2 = k
    · simp [objGet, h]
    · simpa [objGet, h] using ih

theorem objGet_map_eq_find (keyf : Nat → List Char) (valf : Nat → Bool)
    (L : List Nat) (k : List Char) :
    objGet (L.map (fun i => (keyf i, valf i))) k =
      (L.find? (fun i => decide (keyf i = k))).map valf := by
  induction L with
  | nil => rfl
  | cons a t ih =>
    by_cases h : keyf a = k
    · rw [List.map_cons, List.find?_cons_of_pos t (by simp [h])]
      simp [objGet, h]
    · rw [List.map_cons, List.find?_cons_of_neg t (by simp [h]), ← ih]
      simp [objGet, h]

theorem objGet_insertHost (m : PolicyMap) (raw k : List Char) :
    objGet (insertHost m raw) k =
      match hostVal raw k with
      | some v => some v
      | none => objGet m k := by
  rw [insertHost, insertLoopJS_eq, objGet_append, objGet_map_eq_find, hostVal]

theorem csvToMap_lastWrite (L : List (List Char)) :
    ∀ (m : PolicyMap) (k : List Char),
      objGet (L.foldl insertHost m) k =
        match lastWrite k L with
        | some v => some v
        | none => objGet m k := by
  induction L with
  | nil => intro m k; rfl
  | cons raw rest ih =>
    intro m k
    rw [List.foldl_cons, ih]
    cases hl : lastWrite k rest with
    | some v => simp [lastWrite, hl]
    | none =>
      simp only [lastWrite, hl]
      exact objGet_insertHost m raw k

/-- Claim C2 (amended): `csvToMap` splits the configured CSV list on
commas and trims and lowercases each host; each host writes one entry per
dot of its normalised form — the key is the suffix starting at that dot
(leading dot included), valued `true` exactly at the host's first
(deepest) dot — and when several hosts share a key, the value written by
the latest host in list order wins (last-writer, not deepest-seen). The
full host itself is never recorded: for `a.b.example.com` the recorded
keys are exactly `.com`, `.example.com` and `.b.example.com` with
`.b.example.com` terminal, so a terminal entry matches any host ending in
that dotted suffix, not only the exact host supplied. -/
theorem spec_c2 :
    (∀ (s : String) (k : List Char),
      objGet (csvToMapS s) k = lastWrite k (jsSplit ',' s.data))
    ∧ (∀ (raw : List Char) (j : Nat), j < (hostDots raw).length →
        hostVal raw ((hostNorm raw).drop ((hostDots raw).getD j 0)) = some (decide (j = 0)))
    ∧ (∀ (raw k : List Char), (hostVal raw k).isSome = true ↔
        ∃ j, j < (hostDots raw).length ∧
          k = (hostNorm raw).drop ((hostDots raw).getD j 0)) := by
  refine ⟨?_, ?_, ?_⟩
  · intro s k
    rw [csvToMapS, csvToMap, csvToMap_lastWrite]
    cases hl : lastWrite k (jsSplit ',' s.data) <;> simp [hl, objGet]
  · intro raw j hj
    have h1 := objGet_mapRange_distinct
      (fun i => (hostNorm raw).drop ((hostDots raw).getD i 0))
      (fun i => decide (i = 0))
      (List.range (hostDots raw).length) [] j (List.mem_range.mpr hj)
      (fun i hi he => hostKey_inj raw i j (List.mem_range.mp hi) hj he)
    rw [List.append_nil] at h1
    rw [hostVal, ← objGet_map_eq_find]
    exact h1
  · intro raw k
    rw [hostVal, ← objGet_map_eq_find, objGet_mapRange_isSome]
    simp [List.mem_range]

/-- Witness for the amended claim C2 at concrete inputs: the multi-host
list characterisation instantiated at the shared suffix `.com` of
`example.com,a.example.com`, and the per-host value at the first dot of
the trimmed, mixed-case entry `x.COM `. -/
theorem spec_c2_witness :
    objGet (csvToMapS "example.com,a.example.com") ".com".data =
      lastWrite ".com".data (jsSplit ',' "example.com,a.example.com".data)
    ∧ hostVal "x.COM ".data
        ((hostNorm "x.COM ".data).drop ((hostDots "x.COM ".data).getD 0 0)) =
      some (decide (0 = 0)) := by
  constructor
  · exact spec_c2.1 "example.com,a.example.com" ".com".data
  · exact spec_c2.2.1 "x.COM ".data 0 (by decide)

/-! ### buildCache inversion -/

theorem buildCache_ok_inv (env : BuildEnv) (host : String) (c : Cache)
    (h : buildCache env host = Except.ok c) :
    ∃ recordData, findTxtRecord env.txtAnswer = some recordData ∧
      env.hostIsIp = false ∧ isExceedHostLimit host = false ∧
      isExceedLabelLimit host = false ∧
      validateCAARecords env.caaAnswer = none ∧
      (jsStartsWith recordData.url "http://" || jsStartsWith recordData.url "https://") = true ∧
      isHttpCodeAllowed (recordData.httpStatus.getD "301") = true ∧
      c = { url := wildcardUrl recordData.url
            expand := wildcardExpand recordData.url
            blacklisted := isHostBlacklistedS env.blacklist env.whitelist host
            expire := env.now + env.cacheExpirySeconds * 1000
            httpStatus := jsParseIntLeading (recordData.httpStatus.getD "301") } := by
  rw [buildCache] at h
  by_cases h1 : env.hostIsIp = true
  · rw [if_pos h1] at h; exact Except.noConfusion h
  rw [if_neg h1] at h
  by_cases h2 : isExceedHostLimit host = true
  · rw [if_pos h2] at h; exact Except.noConfusion h
  rw [if_neg h2] at h
  by_cases h3 : isExceedLabelLimit host = true
  · rw [if_pos h3] at h; exact Except.noConfusion h
  rw [if_neg h3] at h
  split at h
  · exact Except.noConfusion h
  next hcaa =>
  split at h
  · exact Except.noConfusion h
  next recordData htxt =>
  by_cases h4 : (jsStartsWith recordData.url "http://" || jsStartsWith recordData.url "https://") = false
  · rw [if_pos h4] at h; exact Except.noConfusion h
  rw [if_neg h4] at h
  by_cases h5 : isHttpCodeAllowed (recordData.httpStatus.getD "301") = false
  · rw [if_pos h5] at h; exact Except.noConfusion h
  rw [if_neg h5] at h
  refine ⟨recordData, htxt, by simpa using h1, by simpa using h2, by simpa using h3, hcaa,
    by simp only [Bool.not_eq_false] at h4; exact h4,
    by simp only [Bool.not_eq_false] at h5; exact h5, ?_⟩
  exact (Except.ok.inj h).symm

/-! ### Claim C5: CAA validation -/

/-- Claim C5: `validateCAARecords` reports authorized (returns null) iff
the answer holds no CAA issue record or some issue record passes the
`letsencrypt.org` regex (accepting the issuer bare or quoted, optionally
suffixed with the `validationmethods=http-01` qualifier); an absent CAA
answer is authorized; otherwise it returns the non-empty list of all
(disqualifying) issue records, and `buildCache` rejects the host. -/
theorem spec_c5 :
    validateCAARecords none = none
    ∧ (∀ recs, validateCAARecords (some recs) = none ↔
        issueRecordsOf recs = [] ∨ ∃ r ∈ issueRecordsOf recs, caaRegexTest r = true)
    ∧ (∀ recs l, validateCAARecords (some recs) = some l →
        l = issueRecordsOf recs ∧ l ≠ [] ∧ ∀ r ∈ l, caaRegexTest r = false)
    ∧ (∀ env host l, env.hostIsIp = false → isExceedHostLimit host = false →
        isExceedLabelLimit host = false → validateCAARecords env.caaAnswer = some l →
        buildCache env host = Except.error
          ("CAA record is not \"letsencrypt.org\". Records found: "
            ++ String.intercalate "," l ++ ".")) := by
  refine ⟨rfl, ?_, ?_, ?_⟩
  · intro recs
    rw [validateCAARecords]
    by_cases hc : ((issueRecordsOf recs).isEmpty || (issueRecordsOf recs).any caaRegexTest) = true
    · rw [if_pos hc]
      simp only [true_iff]
      rcases Bool.or_eq_true_iff.mp hc with he | ha
      · exact Or.inl (List.isEmpty_iff.mp he)
      · obtain ⟨r, hr, ht⟩ := List.any_eq_true.mp ha
        exact Or.inr ⟨r, hr, ht⟩
    · rw [if_neg hc]
      simp only [Bool.or_eq_true, not_or] at hc
      obtain ⟨he, ha⟩ := hc
      constructor
      · intro habs; exact Option.noConfusion habs
      · rintro (hemp | ⟨r, hr, ht⟩)
        · exact absurd (by simp [hemp] : (issueRecordsOf recs).isEmpty = true) he
        · exact absurd (List.any_eq_true.mpr ⟨r, hr, ht⟩) ha
  · intro recs l h
    rw [validateCAARecords] at h
    by_cases hc : ((issueRecordsOf recs).isEmpty || (issueRecordsOf recs).any caaRegexTest) = true
    · rw [if_pos hc] at h; exact Option.noConfusion h
    · rw [if_neg hc] at h
      simp only [Bool.or_eq_true, not_or] at hc
      obtain ⟨he, ha⟩ := hc
      have hl : l = issueRecordsOf recs := (Option.some.inj h).symm
      refine ⟨hl, ?_, ?_⟩
      · intro hemp
        exact he (by simp [hl ▸ hemp])
      · intro r hr
        have := Bool.eq_false_iff.mpr (fun htr => ha (List.any_eq_true.mpr ⟨r, hl ▸ hr, htr⟩))
        exact this
  · intro env host l h1 h2 h3 hcaa
    rw [buildCache, if_neg (by simp [h1]), if_neg (by simp [h2]), if_neg (by simp [h3]), hcaa]

/-- Witness for C5: a concrete CAA answer whose only issue record names a
different authority makes `buildCache` fail with that record listed. -/
theorem spec_c5_witness :
    buildCache
      { hostIsIp := false, caaAnswer := some [{ type := 257, data := "0 issue digicert.com" }],
        txtAnswer := none, now := 0, cacheExpirySeconds := 86400,
        blacklist := [], whitelist := none } "a.com" =
      Except.error ("CAA record is not \"letsencrypt.org\". Records found: "
        ++ String.intercalate "," ["0 issue digicert.com"] ++ ".") :=
  spec_c5.2.2.2
    { hostIsIp := false, caaAnswer := some [{ type := 257, data := "0 issue digicert.com" }],
      txtAnswer := none, now := 0, cacheExpirySeconds := 86400,
      blacklist := [], whitelist := none } "a.com" ["0 issue digicert.com"]
    rfl rfl rfl (by decide)

/-! ### Claim C6: TXT lookup and parsing -/

theorem parse_segment (k v : List Char) (hk : k ≠ []) (hke : '=' ∉ k)
    (hks : ';' ∉ k) (hvs : ';' ∉ v) :
    objGetS (parseTxtRecordData ⟨k ++ '=' :: v⟩) ⟨k⟩ = some ⟨v⟩ := by
  have hsem : ';' ∉ k ++ '=' :: v := by
    intro hm
    rcases List.mem_append.mp hm with hmk | hmv
    · exact hks hmk
    · rcases List.mem_cons.mp hmv with heq | hv2
      · exact absurd heq (by decide)
      · exact hvs hv2
  have hdata : (⟨k ++ '=' :: v⟩ : String).data = k ++ '=' :: v := rfl
  rw [parseTxtRecordData, hdata, jsSplit_of_not_mem ';' _ hsem, List.foldl_cons, List.foldl_nil]
  simp only [jsSplit_cons_of_head '=' k v hke]
  rw [if_pos ⟨hk, jsSplit_ne_nil '=' v⟩, joinWith_jsSplit]
  rw [objGetS, if_pos rfl]

theorem findTxtLoop_none_iff (recs : List DnsAnswer) :
    findTxtLoop recs = none ↔ ∀ a ∈ recs, txtQualifies a = false := by
  induction recs with
  | nil => simp [findTxtLoop]
  | cons a rest ih =>
    rw [findTxtLoop]
    by_cases hq : txtQualifies a = true
    · rw [if_pos hq]
      constructor
      · intro h; exact Option.noConfusion h
      · intro h
        have := h a (List.mem_cons_self a rest)
        rw [hq] at this
        exact Bool.noConfusion this
    · rw [if_neg hq, ih]
      constructor
      · intro h b hb
        rcases List.mem_cons.mp hb with rfl | hb2
        · exact Bool.eq_false_iff.mpr hq
        · exact h b hb2
      · intro h b hb
        exact h b (List.mem_cons_of_mem a hb)

/-- Claim C6: the TXT lookup queries record name `"_." ++ host`; an absent
answer, or no TXT (type 16) record whose parsed data carries a truthy
`forward-domain` value, is a hard failure (`none`, surfaced by `buildCache`
as the "is missing" error); the loop returns the first qualifying record,
retaining only the `forward-domain` and `http-status` fields; each
semicolon-separated segment is split at its first `'='` only, so a value
may itself contain `'='`. -/
theorem spec_c6 :
    (∀ host, txtQueryName host = "_." ++ host)
    ∧ findTxtRecord none = none
    ∧ (∀ recs, findTxtRecord (some recs) = none ↔ ∀ a ∈ recs, txtQualifies a = false)
    ∧ (∀ a rest, findTxtRecord (some (a :: rest)) =
        if txtQualifies a then some (txtRecordOf a) else findTxtRecord (some rest))
    ∧ (∀ k v : List Char, k ≠ [] → '=' ∉ k → ';' ∉ k → ';' ∉ v →
        objGetS (parseTxtRecordData ⟨k ++ '=' :: v⟩) ⟨k⟩ = some ⟨v⟩)
    ∧ (∀ env host, env.hostIsIp = false → isExceedHostLimit host = false →
        isExceedLabelLimit host = false → validateCAARecords env.caaAnswer = none →
        findTxtRecord env.txtAnswer = none →
        buildCache env host =
          Except.error ("The TXT record data for \"_." ++ host ++ "\" is missing")) := by
  refine ⟨fun host => rfl, rfl, findTxtLoop_none_iff, fun a rest => rfl, parse_segment, ?_⟩
  intro env host h1 h2 h3 hcaa htxt
  rw [buildCache, if_neg (by simp [h1]), if_neg (by simp [h2]), if_neg (by simp [h3]), hcaa, htxt]

/-- Witness for C6: a concrete TXT answer where the first record is not
TXT, the second lacks the key, and the third carries a `forward-domain`
value containing `'='` characters past the first. -/
theorem spec_c6_witness :
    findTxtRecord (some [{ type := 1, data := "x" }, { type := 16, data := "nope=1" },
        { type := 16, data := "forward-domain=https://e/?a=1&b=2;http-status=302" }]) =
      some { url := "https://e/?a=1&b=2", httpStatus := some "302" }
    ∧ objGetS (parseTxtRecordData ⟨"forward-domain".data ++ '=' :: "https://e/?a=1&b=2".data⟩)
        "forward-domain" = some "https://e/?a=1&b=2" := by
  constructor
  · have h3 := spec_c6.2.2.1
    have h4 := spec_c6.2.2.2.1
    rw [h4, if_neg (by decide), h4, if_neg (by decide), h4, if_pos (by decide)]
    decide
  · exact spec_c6.2.2.2.2.1 "forward-domain".data "https://e/?a=1&b=2".data
      (by decide) (by decide) (by decide) (by decide)

/-! ### Claim C3: redirect status allow-list -/

theorem buildCache_badStatus (env : BuildEnv) (host : String) (rec : TxtRecord)
    (h1 : env.hostIsIp = false) (h2 : isExceedHostLimit host = false)
    (h3 : isExceedLabelLimit host = false)
    (hcaa : validateCAARecords env.caaAnswer = none)
    (htxt : findTxtRecord env.txtAnswer = some rec)
    (hurl : (jsStartsWith rec.url "http://" || jsStartsWith rec.url "https://") = true)
    (hbad : isHttpCodeAllowed (rec.httpStatus.getD "301") = false) :
    buildCache env host = Except.error
      ("The record \"" ++ wildcardUrl rec.url ++ "\" wants to use the http status code "
        ++ rec.httpStatus.getD "301" ++ " which is not allowed (only 301, 302, 307 and 308)") := by
  rw [buildCache, if_neg (by simp [h1]), if_neg (by simp [h2]), if_neg (by simp [h3])]
  split
  next l heq => rw [hcaa] at heq; exact Option.noConfusion heq
  next heq =>
  split
  next heq2 => rw [htxt] at heq2; exact Option.noConfusion heq2
  next rec2 heq2 =>
  have hrec : rec2 = rec := by
    rw [htxt] at heq2
    exact (Option.some.inj heq2).symm
  subst hrec
  rw [if_neg (by simp [hurl]), if_pos hbad]

/-- Claim C3: a successfully built forwarding decision always carries a
redirect status in {301, 302, 307, 308}; a missing `http-status` TXT field
defaults to 301; a value outside the allow-list makes `buildCache` fail
with the offending code spliced into the error message. -/
theorem spec_c3 :
    (∀ env host c, buildCache env host = Except.ok c →
      c.httpStatus = 301 ∨ c.httpStatus = 302 ∨ c.httpStatus = 307 ∨ c.httpStatus = 308)
    ∧ (∀ env host c rec, buildCache env host = Except.ok c →
        findTxtRecord env.txtAnswer = some rec → rec.httpStatus = none → c.httpStatus = 301)
    ∧ (∀ env host rec, env.hostIsIp = false → isExceedHostLimit host = false →
        isExceedLabelLimit host = false → validateCAARecords env.caaAnswer = none →
        findTxtRecord env.txtAnswer = some rec →
        (jsStartsWith rec.url "http://" || jsStartsWith rec.url "https://") = true →
        isHttpCodeAllowed (rec.httpStatus.getD "301") = false →
        ∃ a b : String, buildCache env host =
          Except.error (a ++ rec.httpStatus.getD "301" ++ b)) := by
  refine ⟨?_, ?_, ?_⟩
  · intro env host c h
    obtain ⟨rec, _, _, _, _, _, _, hallow, hc⟩ := buildCache_ok_inv env host c h
    have hall : rec.httpStatus.getD "301" = "301" ∨ rec.httpStatus.getD "301" = "302" ∨
        rec.httpStatus.getD "301" = "307" ∨ rec.httpStatus.getD "301" = "308" := by
      simpa [isHttpCodeAllowed, or_assoc] using hallow
    subst hc
    rcases hall with h1 | h1 | h1 | h1
    · left; simp only [h1]; decide
    · right; left; simp only [h1]; decide
    · right; right; left; simp only [h1]; decide
    · right; right; right; simp only [h1]; decide
  · intro env host c rec h htxt hnone
    obtain ⟨rec2, htxt2, _, _, _, _, _, _, hc⟩ := buildCache_ok_inv env host c h
    have hrec : rec2 = rec := by rw [htxt2] at htxt; exact Option.some.inj htxt
    subst hrec hc
    simp only [hnone]
    decide
  · intro env host rec h1 h2 h3 hcaa htxt hurl hbad
    exact ⟨"The record \"" ++ wildcardUrl rec.url ++ "\" wants to use the http status code ",
      " which is not allowed (only 301, 302, 307 and 308)",
      buildCache_badStatus env host rec h1 h2 h3 hcaa htxt hurl hbad⟩

/-- Witness for C3: a concrete TXT answer with `http-status=307` builds a
decision with status 307, a record without the field defaults to 301, and
`http-status=999` fails with 999 in the message. -/
theorem spec_c3_witness :
    ((⟨"https://d.example/p", false, false, 86400000, 307⟩ : Cache).httpStatus = 301 ∨
      ((⟨"https://d.example/p", false, false, 86400000, 307⟩ : Cache)).httpStatus = 302 ∨
      ((⟨"https://d.example/p", false, false, 86400000, 307⟩ : Cache)).httpStatus = 307 ∨
      ((⟨"https://d.example/p", false, false, 86400000, 307⟩ : Cache)).httpStatus = 308)
    ∧ ((⟨"https://d.example/p", false, false, 86400000, 301⟩ : Cache)).httpStatus = 301
    ∧ (∃ a b : String, buildCache
        { hostIsIp := false, caaAnswer := none,
          txtAnswer := some [{ type := 16, data := "forward-domain=https://d.example/p;http-status=999" }],
          now := 0, cacheExpirySeconds := 86400, blacklist := [], whitelist := none } "a.com" =
        Except.error (a ++ "999" ++ b)) := by
  refine ⟨?_, ?_, ?_⟩
  · exact spec_c3.1
      { hostIsIp := false, caaAnswer := none,
        txtAnswer := some [{ type := 16, data := "forward-domain=https://d.example/p;http-status=307" }],
        now := 0, cacheExpirySeconds := 86400, blacklist := [], whitelist := none } "a.com"
      ⟨"https://d.example/p", false, false, 86400000, 307⟩ (by rfl)
  · exact spec_c3.2.1
      { hostIsIp := false, caaAnswer := none,
        txtAnswer := some [{ type := 16, data := "forward-domain=https://d.example/p" }],
        now := 0, cacheExpirySeconds := 86400, blacklist := [], whitelist := none } "a.com"
      ⟨"https://d.example/p", false, false, 86400000, 301⟩
      ⟨"https://d.example/p", none⟩ (by rfl) (by rfl) rfl
  · have h := spec_c3.2.2
      { hostIsIp := false, caaAnswer := none,
        txtAnswer := some [{ type := 16, data := "forward-domain=https://d.example/p;http-status=999" }],
        now := 0, cacheExpirySeconds := 86400, blacklist := [], whitelist := none } "a.com"
      { url := "https://d.example/p", httpStatus := some "999" }
      rfl rfl rfl rfl (by decide) (by decide) (by decide)
    simpa using h

/-! ### Claim C4: wildcard stripping and the final Location -/

/-- Claim C4: a cached decision built from a TXT `forward-domain` value
ending in `'*'` stores the value with the trailing `'*'` stripped and the
wildcard-expand flag set, so the starred TXT value is never stored
verbatim as the destination; the final redirect `Location` equals the
stored destination unchanged when wildcard-expand is false, and equals the
destination joined with the request path — collapsing duplicate slashes at
the join point — when it is true. -/
theorem spec_c4 :
    (∀ env host rec c, buildCache env host = Except.ok c →
      findTxtRecord env.txtAnswer = some rec → jsEndsWithChar rec.url '*' = true →
      c.url = jsDropLast rec.url ∧ c.expand = true ∧ c.url ≠ rec.url)
    ∧ (∀ c reqUrl, c.expand = false → redirectLocation c reqUrl = c.url)
    ∧ (∀ c reqUrl, c.expand = true → redirectLocation c reqUrl = combineURLs c.url reqUrl)
    ∧ (∀ b r : String, r ≠ "" → combineURLs b r =
        ⟨stripTrailingSlashes b.data ++ '/' :: stripLeadingSlashes r.data⟩)
    ∧ (∀ b : String, combineURLs b "" = b) := by
  refine ⟨?_, ?_, ?_, ?_, ?_⟩
  · intro env host rec c h htxt hstar
    obtain ⟨rec2, htxt2, _, _, _, _, _, _, hc⟩ := buildCache_ok_inv env host c h
    have hrec : rec2 = rec := by rw [htxt2] at htxt; exact Option.some.inj htxt
    subst hrec hc
    have hne : rec2.url.data ≠ [] := by
      intro h0
      rw [jsEndsWithChar, h0] at hstar
      simp at hstar
    refine ⟨?_, ?_, ?_⟩
    · show wildcardUrl rec2.url = jsDropLast rec2.url
      rw [wildcardUrl, if_pos hstar]
    · show wildcardExpand rec2.url = true
      rw [wildcardExpand, hstar]
    · show wildcardUrl rec2.url ≠ rec2.url
      rw [wildcardUrl, if_pos hstar]
      intro heq
      have hdata : rec2.url.data.dropLast = rec2.url.data := congrArg String.data heq
      have hlen := congrArg List.length hdata
      rw [List.length_dropLast] at hlen
      have hpos : 0 < rec2.url.data.length := List.length_pos.mpr hne
      omega
  · intro c reqUrl hexp
    rw [redirectLocation, if_neg (by simp [hexp])]
  · intro c reqUrl hexp
    rw [redirectLocation, if_pos hexp]
  · intro b r hr
    rw [combineURLs, if_neg hr]
  · intro b
    rw [combineURLs, if_pos rfl]

/-- Witness for C4: a concrete starred TXT value is stripped at
construction, and a concrete wildcard join collapses the duplicate
slashes at the join point. -/
theorem spec_c4_witness :
    ((⟨"https://e/app", true, false, 86400000, 301⟩ : Cache).url =
        jsDropLast "https://e/app*"
      ∧ (⟨"https://e/app", true, false, 86400000, 301⟩ : Cache).expand = true
      ∧ (⟨"https://e/app", true, false, 86400000, 301⟩ : Cache).url ≠ "https://e/app*")
    ∧ combineURLs "https://e/app/" "/x?y=1" =
        ⟨stripTrailingSlashes "https://e/app/".data ++ '/' :: stripLeadingSlashes "/x?y=1".data⟩
    ∧ combineURLs "https://e/app" "" = "https://e/app" := by
  refine ⟨?_, ?_, ?_⟩
  · exact spec_c4.1
      { hostIsIp := false, caaAnswer := none,
        txtAnswer := some [{ type := 16, data := "forward-domain=https://e/app*" }],
        now := 0, cacheExpirySeconds := 86400, blacklist := [], whitelist := none } "a.com"
      ⟨"https://e/app*", none⟩ ⟨"https://e/app", true, false, 86400000, 301⟩
      (by rfl) (by rfl) (by decide)
  · exact spec_c4.2.2.2.1 "https://e/app/" "/x?y=1" (by decide)
  · exact spec_c4.2.2.2.2 "https://e/app"

/-! ### Claim C7: cache freshness discipline -/

/-- Claim C7: a cached entry is served (with the store untouched) only
when the lookup finds a real entry that is not expired; a missing entry,
the empty sentinel, or an entry with the current time strictly past its
expiry all run the full validation pipeline, overwriting the slot with the
fresh entry when it succeeds, before any response is derived. -/
theorem spec_c7 :
    (∀ st env host c, cacheGet st host = some (CVal.entry c) → ¬ env.now > c.expire →
      resolveStep st env host = Except.ok (c, st))
    ∧ (∀ st env host, cacheGet st host = none →
        resolveStep st env host =
          (buildCache env host).map (fun c2 => (c2, cacheSet st host (CVal.entry c2))))
    ∧ (∀ st env host, cacheGet st host = some CVal.sentinel →
        resolveStep st env host =
          (buildCache env host).map (fun c2 => (c2, cacheSet st host (CVal.entry c2))))
    ∧ (∀ st env host c, cacheGet st host = some (CVal.entry c) → env.now > c.expire →
        resolveStep st env host =
          (buildCache env host).map (fun c2 => (c2, cacheSet st host (CVal.entry c2)))) := by
  refine ⟨?_, ?_, ?_, ?_⟩
  · intro st env host c hget hexp
    simp only [resolveStep, hget]
    rw [if_neg hexp]
  · intro st env host hget
    simp only [resolveStep, hget]
  · intro st env host hget
    simp only [resolveStep, hget]
  · intro st env host c hget hexp
    simp only [resolveStep, hget]
    rw [if_pos hexp]

/-- Witness for C7: a fresh concrete entry is served unchanged; the same
entry observed past its expiry triggers a rebuild against a concrete DNS
environment and the slot is overwritten. -/
theorem spec_c7_witness :
    resolveStep [("a.com", CVal.entry ⟨"https://e/", false, false, 1000, 301⟩)]
      { hostIsIp := false, caaAnswer := none,
        txtAnswer := some [{ type := 16, data := "forward-domain=https://f/" }],
        now := 500, cacheExpirySeconds := 86400, blacklist := [], whitelist := none } "a.com" =
      Except.ok (⟨"https://e/", false, false, 1000, 301⟩,
        [("a.com", CVal.entry ⟨"https://e/", false, false, 1000, 301⟩)])
    ∧ resolveStep [("a.com", CVal.entry ⟨"https://e/", false, false, 1000, 301⟩)]
      { hostIsIp := false, caaAnswer := none,
        txtAnswer := some [{ type := 16, data := "forward-domain=https://f/" }],
        now := 2000, cacheExpirySeconds := 86400, blacklist := [], whitelist := none } "a.com" =
      (buildCache
        { hostIsIp := false, caaAnswer := none,
          txtAnswer := some [{ type := 16, data := "forward-domain=https://f/" }],
          now := 2000, cacheExpirySeconds := 86400, blacklist := [], whitelist := none } "a.com").map
        (fun c2 => (c2, cacheSet [("a.com", CVal.entry ⟨"https://e/", false, false, 1000, 301⟩)]
          "a.com" (CVal.entry c2))) := by
  constructor
  · exact spec_c7.1 [("a.com", CVal.entry ⟨"https://e/", false, false, 1000, 301⟩)]
      { hostIsIp := false, caaAnswer := none,
        txtAnswer := some [{ type := 16, data := "forward-domain=https://f/" }],
        now := 500, cacheExpirySeconds := 86400, blacklist := [], whitelist := none } "a.com"
      ⟨"https://e/", false, false, 1000, 301⟩ (by decide) (by decide)
  · exact spec_c7.2.2.2 [("a.com", CVal.entry ⟨"https://e/", false, false, 1000, 301⟩)]
      { hostIsIp := false, caaAnswer := none,
        txtAnswer := some [{ type := 16, data := "forward-domain=https://f/" }],
        now := 2000, cacheExpirySeconds := 86400, blacklist := [], whitelist := none } "a.com"
      ⟨"https://e/", false, false, 1000, 301⟩ (by decide) (by decide)

/-! ### Claim C8: failures are not cached and surface as 400/500 -/

/-- Claim C8: when resolution fails the store is returned unchanged (so a
persistently broken host re-runs validation on every request) and the
response is 400 carrying the error message when it is nonempty, or 500
with a generic message when it is empty; a cache miss whose rebuild fails
propagates exactly the build error. -/
theorem spec_c8 :
    (∀ env st rawHost reqUrl msg,
      resolveStep st env.build (normalizeHost rawHost) = Except.error msg →
      serveForward env st rawHost reqUrl = (errorResponse msg, st))
    ∧ (∀ msg, msg ≠ "" →
        errorResponse msg = { status := 400, location := none, body := some msg })
    ∧ errorResponse "" = { status := 500, location := none, body := some "Unknown error" }
    ∧ (∀ st env host msg, cacheGet st host = none → buildCache env host = Except.error msg →
        resolveStep st env host = Except.error msg) := by
  refine ⟨?_, ?_, ?_, ?_⟩
  · intro env st rawHost reqUrl msg herr
    simp only [serveForward, herr]
  · intro msg hmsg
    rw [errorResponse, if_pos hmsg]
  · rw [errorResponse, if_neg (by simp)]
  · intro st env host msg hget herr
    simp only [resolveStep, hget, herr, Except.map]

/-- Witness for C8: a concrete broken host (no TXT answer) yields a 400
with the build error message and leaves the concrete store unchanged. -/
theorem spec_c8_witness :
    serveForward
      { build := { hostIsIp := false, caaAnswer := none, txtAnswer := none,
                   now := 0, cacheExpirySeconds := 86400,
                   blacklist := [], whitelist := none },
        blacklistRedirectUrl := none, encodeURIComponent := fun s => s,
        isFQDN := fun _ => true }
      [("b.com", CVal.entry ⟨"https://e/", false, false, 1000, 301⟩)] "a.com" "/p" =
      (errorResponse ("The TXT record data for \"_." ++ "a.com" ++ "\" is missing"),
        [("b.com", CVal.entry ⟨"https://e/", false, false, 1000, 301⟩)])
    ∧ errorResponse "boom" = { status := 400, location := none, body := some "boom" } := by
  constructor
  · exact spec_c8.1
      { build := { hostIsIp := false, caaAnswer := none, txtAnswer := none,
                   now := 0, cacheExpirySeconds := 86400,
                   blacklist := [], whitelist := none },
        blacklistRedirectUrl := none, encodeURIComponent := fun s => s,
        isFQDN := fun _ => true }
      [("b.com", CVal.entry ⟨"https://e/", false, false, 1000, 301⟩)] "a.com" "/p"
      ("The TXT record data for \"_." ++ "a.com" ++ "\" is missing") (by rfl)
  · exact spec_c8.2.1 "boom" (by decide)

/-! ### Claim C9: the /flushcache endpoint -/

/-- Claim C9: a POST to `/flushcache` always answers 200 "Cache cleared"
whatever the body held; any other method answers 405 leaving the store
untouched; and a nonempty FQDN-valid domain with an existing real cache
entry has its slot overwritten with the empty sentinel, so that the next
resolution for that key runs the full validation pipeline (a forced miss). -/
theorem spec_c9 :
    (∀ (isF : String → Bool) bodyDomain st,
      (flushcache isF "POST" bodyDomain st).1 =
        { status := 200, location := none, body := some "Cache cleared" })
    ∧ (∀ (isF : String → Bool) method bodyDomain st, method ≠ "POST" →
        flushcache isF method bodyDomain st =
          ({ status := 405, location := none, body := some "Method Not Allowed" }, st))
    ∧ (∀ (isF : String → Bool) d c st, d ≠ "" → isF d = true →
        cacheGet st d = some (CVal.entry c) →
        (flushcache isF "POST" (some d) st).2 = cacheSet st d CVal.sentinel
        ∧ cacheGet (flushcache isF "POST" (some d) st).2 d = some CVal.sentinel
        ∧ (∀ env, resolveStep (flushcache isF "POST" (some d) st).2 env d =
            (buildCache env d).map (fun c2 =>
              (c2, cacheSet (flushcache isF "POST" (some d) st).2 d (CVal.entry c2))))) := by
  refine ⟨?_, ?_, ?_⟩
  · intro isF bodyDomain st
    rw [flushcache, if_pos rfl]
  · intro isF method bodyDomain st hm
    rw [flushcache, if_neg hm]
  · intro isF d c st hd hisf hget
    have hsnd : (flushcache isF "POST" (some d) st).2 = cacheSet st d CVal.sentinel := by
      rw [flushcache, if_pos rfl]
      show flushDomain isF st (some d) = cacheSet st d CVal.sentinel
      simp only [flushDomain, if_neg hd, hisf, if_pos rfl, hget, if_true]
    have hnewget : cacheGet (flushcache isF "POST" (some d) st).2 d = some CVal.sentinel := by
      rw [hsnd]
      show cacheGet ((d, CVal.sentinel) :: st) d = some CVal.sentinel
      rw [cacheGet, if_pos rfl]
    refine ⟨hsnd, hnewget, ?_⟩
    intro env
    simp only [resolveStep, hnewget]

/-- Witness for C9: flushing a concretely cached FQDN answers 200, leaves
the sentinel in the slot, and forces the next resolution into a rebuild;
a GET is refused with 405. -/
theorem spec_c9_witness :
    (flushcache (fun _ => true) "POST" (some "a.com")
        [("a.com", CVal.entry ⟨"https://e/", false, false, 1000, 301⟩)]).2 =
      cacheSet [("a.com", CVal.entry ⟨"https://e/", false, false, 1000, 301⟩)]
        "a.com" CVal.sentinel
    ∧ flushcache (fun _ => true) "GET" (some "a.com")
        [("a.com", CVal.entry ⟨"https://e/", false, false, 1000, 301⟩)] =
      ({ status := 405, location := none, body := some "Method Not Allowed" },
        [("a.com", CVal.entry ⟨"https://e/", false, false, 1000, 301⟩)])
    ∧ (flushcache (fun _ => true) "POST" (some "b.org") [] ).1 =
      { status := 200, location := none, body := some "Cache cleared" } := by
  refine ⟨?_, ?_, ?_⟩
  · exact (spec_c9.2.2 (fun _ => true) "a.com" ⟨"https://e/", false, false, 1000, 301⟩
      [("a.com", CVal.entry ⟨"https://e/", false, false, 1000, 301⟩)]
      (by decide) rfl (by decide)).1
  · exact spec_c9.2.1 (fun _ => true) "GET" (some "a.com")
      [("a.com", CVal.entry ⟨"https://e/", false, false, 1000, 301⟩)] (by decide)
  · exact spec_c9.1 (fun _ => true) (some "b.org") []

/-! ### Claim C10: flush key case-sensitivity -/

theorem char_toNat_ofNat_valid (n : Nat) (h : n.isValidChar) :
    (Char.ofNat n).toNat = n := by
  rw [Char.ofNat, dif_pos h]
  rfl

theorem jsLowerChar_idem (c : Char) : jsLowerChar (jsLowerChar c) = jsLowerChar c := by
  by_cases h : 65 ≤ c.toNat ∧ c.toNat ≤ 90
  · have h1 : jsLowerChar c = Char.ofNat (c.toNat + 32) := by rw [jsLowerChar, if_pos h]
    have hvalid : (c.toNat + 32).isValidChar := Or.inl (by omega)
    have hn : (Char.ofNat (c.toNat + 32)).toNat = c.toNat + 32 :=
      char_toNat_ofNat_valid _ hvalid
    rw [h1, jsLowerChar, if_neg]
    intro hcon
    rw [hn] at hcon
    omega
  · have h1 : jsLowerChar c = c := by rw [jsLowerChar, if_neg h]
    rw [h1, h1]

theorem map_eq_self_of_forall {l : List Char} {f : Char → Char}
    (h : ∀ c ∈ l, f c = c) : l.map f = l := by
  induction l with
  | nil => rfl
  | cons a t ih =>
    rw [List.map_cons, h a (List.mem_cons_self a t), ih (fun c hc => h c (List.mem_cons_of_mem a hc))]

theorem mem_stripPortSuffix {l : List Char} {x : Char} (h : x ∈ stripPortSuffix l) : x ∈ l := by
  rw [stripPortSuffix] at h
  split at h
  next rest heq =>
    split at h
    · exact h
    · have hx : x ∈ rest := List.mem_reverse.mp h
      have hx2 : x ∈ (':' :: rest) := List.mem_cons_of_mem _ hx
      rw [← heq] at hx2
      exact List.mem_reverse.mp (List.mem_of_mem_drop hx2)
  next => exact h

theorem jsToLowerL_idem (l : List Char) : jsToLowerL (jsToLowerL l) = jsToLowerL l := by
  apply map_eq_self_of_forall
  intro c hc
  obtain ⟨c0, _, rfl⟩ := List.mem_map.mp hc
  exact jsLowerChar_idem c0

theorem normalizeHost_lower (raw : String) :
    jsToLowerS (normalizeHost raw) = normalizeHost raw := by
  rw [normalizeHost, jsToLowerS]
  show (⟨jsToLowerL (stripPortSuffix (jsToLowerL raw.data))⟩ : String) =
    ⟨stripPortSuffix (jsToLowerL raw.data)⟩
  apply congrArg String.mk
  apply map_eq_self_of_forall
  intro c hc
  have hc2 : c ∈ jsToLowerL raw.data := mem_stripPortSuffix hc
  obtain ⟨c0, _, rfl⟩ := List.mem_map.mp hc2
  exact jsLowerChar_idem c0

/-- Claim C10: `/flushcache` looks the cache up with the body's `domain`
value verbatim, while forwarding writes cache keys through `normalizeHost`
(Host header lowercased, port stripped) — an already-lowercase form. So a
flush whose domain differs in letter case from the lowercased key
invalidates nothing: the store is returned unchanged while the response is
still 200 "Cache cleared". -/
theorem spec_c10 (isF : String → Bool) (st : CacheMap) (d : String)
    (hkeys : ∀ e ∈ st, jsToLowerS e.1 = e.1) (hd : jsToLowerS d ≠ d) :
    flushcache isF "POST" (some d) st =
      ({ status := 200, location := none, body := some "Cache cleared" }, st)
    ∧ (∀ raw : String, jsToLowerS (normalizeHost raw) = normalizeHost raw) := by
  have hdne : d ≠ "" := by
    intro h0
    rw [h0] at hd
    exact hd rfl
  have hget : cacheGet st d = none := by
    induction st with
    | nil => rfl
    | cons e rest ih =>
      obtain ⟨k2, v⟩ := e
      by_cases he : k2 = d
      · subst he
        exact absurd (hkeys (k2, v) (List.mem_cons_self _ _)) (by simpa using hd)
      · rw [cacheGet, if_neg he]
        exact ih (fun e2 he2 => hkeys e2 (List.mem_cons_of_mem _ he2))
  constructor
  · rw [flushcache, if_pos rfl]
    have hflush : flushDomain isF st (some d) = st := by
      simp only [flushDomain, if_neg hdne, hget]
      split
      · rfl
      · rfl
    rw [hflush]
  · exact normalizeHost_lower

/-- Witness for C10: flushing `A.com` against a store keyed by the
lowercase `a.com` leaves the entry intact while still answering 200. -/
theorem spec_c10_witness :
    flushcache (fun _ => true) "POST" (some "A.com")
      [("a.com", CVal.entry ⟨"https://e/", false, false, 1000, 301⟩)] =
      ({ status := 200, location := none, body := some "Cache cleared" },
        [("a.com", CVal.entry ⟨"https://e/", false, false, 1000, 301⟩)]) :=
  (spec_c10 (fun _ => true)
    [("a.com", CVal.entry ⟨"https://e/", false, false, 1000, 301⟩)] "A.com"
    (by decide) (by decide)).1

/-- Witness for C1 at concrete inputs: the blacklist CSV `example.com`
yields a terminal entry at the `.com` suffix so `foo.com` is blacklisted,
and with the whitelist `ok.net` configured the host `a.bad.com` has no
whitelisted suffix and is denied. -/
theorem spec_c1_witness :
    isHostBlacklistedS (csvToMapS "example.com") none "foo.com" = true
    ∧ isHostBlacklistedS (csvToMapS "") (some (csvToMapS "ok.net")) "a.bad.com" = true := by
  constructor
  · exact (spec_c1 "example.com" "" "foo.com").1.mpr ⟨3, by decide, by decide⟩
  · exact (spec_c1 "" "ok.net" "a.bad.com").2.mpr (by decide)
